import Mathlib

/-!
Shallow embedding of `scripts/find_trailing_fence.py`.

The script walks the current working directory with `os.walk('.')`, skips
every yielded directory whose path string contains `.git`, `node_modules`
or `.venv` as a substring, reads each file whose name ends in `.md`,
and collects the file's path when the file's last line strips to three
backticks.  Read failures are swallowed per file.  Finally it prints either
a no-match message or a header followed by the collected paths.

Python strings are modelled as `List Char` (named `Str` below); a directory
tree is a rose tree whose nodes carry a listability flag (false models a
directory whose `scandir` fails, which `os.walk` silently skips together
with everything below it), named subdirectories in listing order, and files.
A file's content is `Option Str`: `none` models a per-file read failure
(permission error, decoding error, vanished file).
-/

/-- Python strings modelled as lists of characters. -/
abbrev Str := List Char

/-- A directory entry that is a regular file: its name and the result of
trying to read it (`none` models any per-file read failure). -/
structure FileEnt where
  name : Str
  content : Option Str
deriving DecidableEq, Repr

/-- A directory: whether listing it succeeds, its subdirectories (name and
subtree, in listing order) and its regular files (in listing order). -/
inductive DirTree where
  | node (listable : Bool) (subdirs : List (Str × DirTree)) (files : List FileEnt)

/-- Model of `os.path.join(root, f)` for the paths produced by `os.walk('.')`:
the root never ends in a separator and entry names contain no separator, so
the join is concatenation with a single `/`. -/
def pathJoin (root : Str) (f : Str) : Str := root ++ '/' :: f

/-- Model of Python's substring test `pat in s`. -/
def containsSub (s : Str) (pat : Str) : Bool := decide (pat <:+: s)

/-- Model of line 6 of the script:
`'.git' in root or 'node_modules' in root or '.venv' in root`. -/
def isExcluded (root : Str) : Bool :=
  containsSub root (".git".toList) || containsSub root ("node_modules".toList)
    || containsSub root (".venv".toList)

/-- Model of `f.endswith('.md')`. -/
def endsMd (name : Str) : Bool := decide (".md".toList <:+ name)

/-- Characters at which Python's `str.splitlines` breaks a line. -/
def isLineBreak (c : Char) : Bool :=
  c == '\n' || c == '\r' || c == '\x0b' || c == '\x0c' || c == '\x1c'
    || c == '\x1d' || c == '\x1e' || c == '\x85' || c == '\u2028' || c == '\u2029'

/-- Worker for `splitlines`: `acc` holds the reversed characters of the
current line.  A `"\r\n"` pair counts as a single break; a final line
without a terminator is kept, and an empty input yields no lines. -/
def splitlinesAux (acc : Str) : Str → List Str
  | [] => if acc = [] then [] else [acc.reverse]
  | '\r' :: '\n' :: rest => acc.reverse :: splitlinesAux [] rest
  | c :: rest =>
    if isLineBreak c then acc.reverse :: splitlinesAux [] rest
    else splitlinesAux (c :: acc) rest

/-- Model of Python's `str.splitlines()` (line terminators discarded,
no trailing empty line for a trailing terminator, `''` gives `[]`). -/
def splitlines (c : Str) : List Str := splitlinesAux [] c

/-- Characters removed by Python's `str.strip()` (Unicode whitespace). -/
def isPySpace (c : Char) : Bool :=
  c == ' ' || c == '\t' || c == '\n' || c == '\r' || c == '\x0b' || c == '\x0c'
    || c == '\x1c' || c == '\x1d' || c == '\x1e' || c == '\x1f' || c == '\x85'
    || c == '\xa0' || c == '\u1680' || ('\u2000' ≤ c && c ≤ '\u200a')
    || c == '\u2028' || c == '\u2029' || c == '\u202f' || c == '\u205f'
    || c == '\u3000'

/-- Model of Python's `str.strip()`: drop whitespace from both ends. -/
def pyStrip (l : Str) : Str :=
  ((l.dropWhile isPySpace).reverse.dropWhile isPySpace).reverse

/-- The bare fence line the script looks for. -/
def fencePat : Str := "```".toList

/-- Model of line 15 of the script,
`len(lines) > 0 and lines[-1].strip() == '```'`, applied to a file content. -/
def fenceCheck (c : Str) : Bool :=
  match (splitlines c).getLast? with
  | none => false
  | some l => decide (pyStrip l = fencePat)

/-- Model of the per-file body of the loop (lines 9 through 18): a non-`.md`
name is ignored; a read failure is swallowed (`except Exception: continue`);
otherwise the joined path is produced exactly when `fenceCheck` holds. -/
def processFile (root : Str) (f : FileEnt) : Option Str :=
  if endsMd f.name then
    match f.content with
    | none => none
    | some c => if fenceCheck c then some (pathJoin root f.name) else none
  else none

/-- Model of one iteration of the `os.walk` loop (lines 4 through 18): the
paths a yielded `(root, files)` pair appends to `found`.  An excluded root
is skipped whole (`continue`). -/
def dirContribution (root : Str) (files : List FileEnt) : List Str :=
  if isExcluded root then [] else files.filterMap (processFile root)

mutual

/-- Model of `os.walk(p)` restricted to what the script consumes: the list of
`(root, files)` pairs in top-down order.  An unlistable directory yields
nothing at all (`os.walk` with the default `onerror=None`). -/
def walk (p : Str) : DirTree → List (Str × List FileEnt)
  | .node listable subdirs files =>
    if listable then (p, files) :: walkSubs p subdirs else []

/-- The `os.walk` entries contributed by a list of named subdirectories of
the directory at path `p`, in listing order. -/
def walkSubs (p : Str) : List (Str × DirTree) → List (Str × List FileEnt)
  | [] => []
  | (n, t) :: rest => walk (pathJoin p n) t ++ walkSubs p rest

end

/-- The paths the script collects in `found` when the walk starts at path
`p` on tree `t`, in collection order. -/
def scanFrom (p : Str) (t : DirTree) : List Str :=
  (walk p t).flatMap (fun e => dirContribution e.1 e.2)

/-- The starting path of `os.walk('.')`. -/
def dotPath : Str := ".".toList

/-- The ResultSet of the script: the `found` list after the walk of `'.'`. -/
def scan (t : DirTree) : List Str := scanFrom dotPath t

/-- The exact line printed when `found` is empty (line 21 of the script). -/
def noMatchLine : Str := "No markdown files end with a trailing fence (```).".toList

/-- The header line printed when `found` is non-empty (line 23). -/
def headerLine : Str := "Files with trailing fence:".toList

/-- Model of lines 20 through 25 of the script: the sequence of lines the
program writes to standard output. -/
def output (t : DirTree) : List Str :=
  if scan t = [] then [noMatchLine] else headerLine :: scan t

/-- The paths collected from the walk entries contributed by a list of named
subdirectories of the directory at path `p`. -/
def scanSubs (p : Str) (subdirs : List (Str × DirTree)) : List Str :=
  (walkSubs p subdirs).flatMap (fun e => dirContribution e.1 e.2)

/-- A concrete tree: the working directory contains only a `.git` directory,
which contains a subdirectory `sub` holding a matching file `a.md`. -/
def gitExampleTree : DirTree :=
  .node true
    [(".git".toList,
      .node true [("sub".toList, .node true [] [⟨"a.md".toList, some fencePat⟩])] [])]
    []

mutual

/-- Modelled from the spec: the pruned traversal of section 4.1, which on
reaching a directory whose path contains an excluded substring "skips
descending into it entirely (does not enumerate its files or
subdirectories)", and otherwise collects the directory's matching `.md`
files and recurses into its subdirectories. -/
def scanPruned (p : Str) : DirTree → List Str
  | .node listable subdirs files =>
    if listable then
      if isExcluded p then []
      else files.filterMap (processFile p) ++ scanPrunedSubs p subdirs
    else []

/-- Modelled from the spec: the pruned traversal applied to each named
subdirectory of the directory at path `p`, in listing order. -/
def scanPrunedSubs (p : Str) : List (Str × DirTree) → List Str
  | [] => []
  | (n, t) :: rest => scanPruned (pathJoin p n) t ++ scanPrunedSubs p rest

end

/-- A file whose read failed is swallowed by the `except` branch: it yields
no path whatever its name. -/
theorem processFile_content_none (root : Str) (f : FileEnt) (h : f.content = none) :
    processFile root f = none := by
  rw [processFile, h]
  split <;> rfl

/-- Characterisation of the per-file body: it yields `q` exactly when the
name ends in `.md`, the read succeeds, the fence check passes and `q` is the
joined path. -/
theorem processFile_eq_some (root : Str) (f : FileEnt) (q : Str) :
    processFile root f = some q ↔
      endsMd f.name = true ∧
        (∃ c, f.content = some c ∧ fenceCheck c = true ∧ q = pathJoin root f.name) := by
  obtain ⟨name, content⟩ := f
  cases hm : endsMd name with
  | false => simp [processFile, hm]
  | true =>
    cases content with
    | none => simp [processFile, hm]
    | some c =>
      cases hc : fenceCheck c with
      | false => simp [processFile, hm, hc]
      | true =>
        simp [processFile, hm, hc]
        exact eq_comm

/-- Characterisation of one `os.walk` iteration: `q` is appended for the
yielded pair `(root, files)` exactly when `root` is not excluded and some
file of the directory produces `q`. -/
theorem mem_dirContribution (root : Str) (files : List FileEnt) (q : Str) :
    q ∈ dirContribution root files ↔
      isExcluded root = false ∧ ∃ f ∈ files, processFile root f = some q := by
  cases h : isExcluded root with
  | false => simp [dirContribution, h, List.mem_filterMap]
  | true => simp [dirContribution, h]

/-- Substring containment is preserved by extending the string on the
right. -/
theorem containsSub_append (p q pat : Str) (h : containsSub p pat = true) :
    containsSub (p ++ q) pat = true := by
  rw [containsSub, decide_eq_true_eq] at h ⊢
  obtain ⟨s, t, rfl⟩ := h
  exact ⟨s, t ++ q, by simp⟩

/-- A path containing an excluded substring still contains it after any
extension on the right. -/
theorem isExcluded_append (p q : Str) (h : isExcluded p = true) :
    isExcluded (p ++ q) = true := by
  rw [isExcluded, Bool.or_eq_true, Bool.or_eq_true] at h ⊢
  rcases h with (h | h) | h
  · exact Or.inl (Or.inl (containsSub_append p q _ h))
  · exact Or.inl (Or.inr (containsSub_append p q _ h))
  · exact Or.inr (containsSub_append p q _ h)

/-- Joining a name onto an excluded directory path keeps it excluded. -/
theorem isExcluded_pathJoin (p n : Str) (h : isExcluded p = true) :
    isExcluded (pathJoin p n) = true :=
  isExcluded_append p ('/' :: n) h

/-- Unfolding of the collected paths at a directory node. -/
theorem scanFrom_node (p : Str) (b : Bool) (subs : List (Str × DirTree))
    (files : List FileEnt) :
    scanFrom p (.node b subs files) =
      if b then dirContribution p files ++ scanSubs p subs else [] := by
  cases b <;> simp [scanFrom, walk, scanSubs]

/-- Unfolding of the collected paths over a subdirectory list. -/
theorem scanSubs_cons (p n : Str) (t : DirTree) (rest : List (Str × DirTree)) :
    scanSubs p ((n, t) :: rest) = scanFrom (pathJoin p n) t ++ scanSubs p rest := by
  simp [scanSubs, walkSubs, scanFrom]

mutual

/-- Walking any tree from a path that contains an excluded substring
collects nothing: every deeper path keeps the substring. -/
theorem scanFrom_excluded_all (p : Str) (t : DirTree) (h : isExcluded p = true) :
    scanFrom p t = [] :=
  match t with
  | .node b subs files => by
    rw [scanFrom_node, scanSubs_excluded_all p subs h]
    have hd : dirContribution p files = [] := by rw [dirContribution, if_pos h]
    cases b <;> simp [hd]

/-- Walking any subdirectory list from a path that contains an excluded
substring collects nothing. -/
theorem scanSubs_excluded_all (p : Str) (subs : List (Str × DirTree))
    (h : isExcluded p = true) : scanSubs p subs = [] :=
  match subs with
  | [] => rfl
  | (n, t) :: rest => by
    rw [scanSubs_cons, scanFrom_excluded_all (pathJoin p n) t (isExcluded_pathJoin p n h),
      scanSubs_excluded_all p rest h]
    rfl

end

mutual

/-- The collecting walk and the spec's pruned traversal agree from every
starting path. -/
theorem scanFrom_eq_scanPruned (p : Str) (t : DirTree) : scanFrom p t = scanPruned p t :=
  match t with
  | .node b subs files => by
    rw [scanFrom_node, scanPruned]
    cases b with
    | false => rfl
    | true =>
      cases hx : isExcluded p with
      | true => simp [dirContribution, hx, scanSubs_excluded_all p subs hx]
      | false => simp [dirContribution, hx, scanSubs_eq_scanPrunedSubs p subs]

/-- The collecting walk and the spec's pruned traversal agree on every
subdirectory list. -/
theorem scanSubs_eq_scanPrunedSubs (p : Str) (subs : List (Str × DirTree)) :
    scanSubs p subs = scanPrunedSubs p subs :=
  match subs with
  | [] => rfl
  | (n, t) :: rest => by
    rw [scanSubs_cons, scanPrunedSubs, scanFrom_eq_scanPruned (pathJoin p n) t,
      scanSubs_eq_scanPrunedSubs p rest]

end

/-- Dropping while a predicate holds skips a block on which it holds
everywhere. -/
theorem dropWhile_append_all (p : Char → Bool) (a b : Str) (h : ∀ c ∈ a, p c = true) :
    List.dropWhile p (a ++ b) = List.dropWhile p b := by
  induction a with
  | nil => rfl
  | cons c rest ih =>
    have hc := h c (List.mem_cons_self c rest)
    simp only [List.cons_append, List.dropWhile_cons, hc, if_true]
    exact ih (fun x hx => h x (List.mem_cons_of_mem c hx))

set_option maxHeartbeats 1600000 in
/-- On break-free input, `splitlinesAux` produces the single pending line. -/
theorem splitlinesAux_noBreak (l : Str) : ∀ acc : Str,
    (∀ c ∈ l, isLineBreak c = false) →
      splitlinesAux acc l =
        if acc.reverse ++ l = [] then [] else [acc.reverse ++ l] := by
  induction l with
  | nil =>
    intro acc h
    simp [splitlinesAux]
  | cons c rest ih =>
    intro acc h
    have hc : isLineBreak c = false := h c (List.mem_cons_self c rest)
    have hr : ∀ x ∈ rest, isLineBreak x = false :=
      fun x hx => h x (List.mem_cons_of_mem c hx)
    have hcr : ∀ rest2 : Str, c = '\r' → rest = '\n' :: rest2 → False := by
      intro _ e _
      rw [e] at hc
      exact absurd hc (by decide)
    rw [splitlinesAux.eq_3 acc c rest hcr, if_neg (by simp [hc]), ih (c :: acc) hr]
    simp

/-- A non-empty break-free content is a single line. -/
theorem splitlines_noBreak (l : Str) (h : ∀ c ∈ l, isLineBreak c = false) (hne : l ≠ []) :
    splitlines l = [l] := by
  rw [splitlines, splitlinesAux_noBreak l [] h]
  simp [hne]

/-- Stripping removes exactly the surrounding whitespace around a bare
fence. -/
theorem pyStrip_spaces_fence (w1 w2 : Str) (h1 : ∀ c ∈ w1, isPySpace c = true)
    (h2 : ∀ c ∈ w2, isPySpace c = true) :
    pyStrip (w1 ++ fencePat ++ w2) = fencePat := by
  have h2r : ∀ c ∈ w2.reverse, isPySpace c = true :=
    fun c hc => h2 c (List.mem_reverse.mp hc)
  have hstep1 : List.dropWhile isPySpace (w1 ++ (fencePat ++ w2)) = fencePat ++ w2 := by
    rw [dropWhile_append_all _ w1 _ h1]
    have hconv : fencePat ++ w2 = '\x60' :: ('\x60' :: '\x60' :: w2) := rfl
    rw [hconv, List.dropWhile_cons, if_neg (by decide)]
  have hstep2 : List.dropWhile isPySpace ((fencePat ++ w2).reverse) = fencePat.reverse := by
    rw [List.reverse_append, dropWhile_append_all _ _ _ h2r]
    have hconv : fencePat.reverse = '\x60' :: ('\x60' :: '\x60' :: []) := rfl
    rw [hconv, List.dropWhile_cons, if_neg (by decide)]
  rw [pyStrip, List.append_assoc, hstep1, hstep2, List.reverse_reverse]

/-- The walk entries of an appended subdirectory list are the appended
entries. -/
theorem walkSubs_append (p : Str) (a b : List (Str × DirTree)) :
    walkSubs p (a ++ b) = walkSubs p a ++ walkSubs p b := by
  induction a with
  | nil => rfl
  | cons x rest ih =>
    obtain ⟨n, t⟩ := x
    simp [walkSubs, ih]

/-- C1: the ResultSet contains exactly the paths of files yielded by the
walk whose containing directory is not excluded, whose name ends in the
literal suffix `.md`, whose read succeeds, and whose content passes the
trailing-fence check; no other path ever appears. -/
theorem claimC1_resultset_exactly (t : DirTree) (q : Str) :
    q ∈ scan t ↔
      ∃ root files, (root, files) ∈ walk dotPath t ∧ isExcluded root = false ∧
        ∃ f ∈ files, endsMd f.name = true ∧
          (∃ c, f.content = some c ∧ fenceCheck c = true) ∧ q = pathJoin root f.name := by
  rw [scan, scanFrom, List.mem_flatMap]
  constructor
  · rintro ⟨⟨root, files⟩, hw, hq⟩
    rw [mem_dirContribution] at hq
    obtain ⟨hx, f, hf, hpf⟩ := hq
    rw [processFile_eq_some] at hpf
    obtain ⟨hEnd, c, hcont, hfc, rfl⟩ := hpf
    exact ⟨root, files, hw, hx, f, hf, hEnd, ⟨c, hcont, hfc⟩, rfl⟩
  · rintro ⟨root, files, hw, hx, f, hf, hEnd, ⟨c, hcont, hfc⟩, rfl⟩
    refine ⟨(root, files), hw, ?_⟩
    rw [mem_dirContribution]
    exact ⟨hx, f, hf, (processFile_eq_some root f _).mpr ⟨hEnd, c, hcont, hfc, rfl⟩⟩

/-- C2 counterexample: the traversal does descend into an excluded
directory.  In a tree whose only contents are `.git/sub/a.md`, the walk of
`'.'` enumerates the excluded directory `./.git`, its subdirectory
`./.git/sub`, and that subdirectory's file `a.md`, contradicting the claim
that an excluded directory's files and subdirectories are not enumerated. -/
theorem claimC2_counterexample :
    isExcluded (("./.git").toList) = true ∧
      walk dotPath gitExampleTree =
        [(dotPath, []),
         ((("./.git").toList), []),
         ((("./.git/sub").toList), [FileEnt.mk (("a.md").toList) (some fencePat)])] := by
  decide

/-- C2 amended: an excluded directory and all of its descendants are
skipped by the per-iteration check, so walking any tree from a path
containing `.git`, `node_modules` or `.venv` contributes no path at all to
the ResultSet, even for content that would otherwise match. -/
theorem claimC2_amended (P : Str) (t : DirTree) (h : isExcluded P = true) :
    scanFrom P t = [] :=
  scanFrom_excluded_all P t h

/-- C2 witness: the amended theorem applied to the excluded path `./.git`
and a concrete tree. -/
theorem claimC2_witness :
    isExcluded (("./.git").toList) = true ∧
      scanFrom (("./.git").toList) gitExampleTree = [] :=
  ⟨by decide, claimC2_amended (("./.git").toList) gitExampleTree (by decide)⟩

/-- C3: a file whose read fails contributes nothing and changes nothing:
the paths collected from a directory with the unreadable file present are
exactly those collected with it absent, so the scan is not aborted, no
error output exists in the model, and every other matching file is still
reported. -/
theorem claimC3_read_failure_skipped (root : Str) (pre post : List FileEnt) (f : FileEnt)
    (h : f.content = none) :
    dirContribution root (pre ++ f :: post) = dirContribution root (pre ++ post) := by
  cases hx : isExcluded root with
  | true => simp [dirContribution, hx]
  | false =>
    simp [dirContribution, hx, List.filterMap_append, List.filterMap_cons,
      processFile_content_none root f h]

/-- C3 witness: with `a.md` unreadable and `b.md` matching, the directory
reports exactly what it reports without `a.md`. -/
theorem claimC3_witness :
    (FileEnt.mk (("a.md").toList) none).content = none ∧
      dirContribution dotPath
          ([] ++ FileEnt.mk (("a.md").toList) none ::
            [FileEnt.mk (("b.md").toList) (some fencePat)]) =
        dirContribution dotPath ([] ++ [FileEnt.mk (("b.md").toList) (some fencePat)]) :=
  ⟨rfl,
    claimC3_read_failure_skipped dotPath [] [FileEnt.mk (("b.md").toList) (some fencePat)]
      (FileEnt.mk (("a.md").toList) none) rfl⟩

/-- C4: the printed output has exactly one of two shapes: the single
no-match line when the ResultSet is empty, and the header line followed by
the collected paths in collection order otherwise. -/
theorem claimC4_output_shape (t : DirTree) :
    (scan t = [] ∧ output t = [noMatchLine]) ∨
      (scan t ≠ [] ∧ output t = headerLine :: scan t) := by
  by_cases h : scan t = []
  · exact Or.inl ⟨h, by rw [output, if_pos h]⟩
  · exact Or.inr ⟨h, by rw [output, if_neg h]⟩

/-- C5: the fence test trims surrounding whitespace from the last line and
compares with exactly three backticks: a bare fence surrounded by any
intra-line whitespace passes, while a fence carrying a language tag
(` ```python `) fails. -/
theorem claimC5_strip_comparison (w1 w2 : Str)
    (h1 : ∀ c ∈ w1, isPySpace c = true ∧ isLineBreak c = false)
    (h2 : ∀ c ∈ w2, isPySpace c = true ∧ isLineBreak c = false) :
    fenceCheck (w1 ++ fencePat ++ w2) = true ∧
      fenceCheck (("```python").toList) = false := by
  constructor
  · have hnb : ∀ c ∈ w1 ++ fencePat ++ w2, isLineBreak c = false := by
      intro c hc
      rcases List.mem_append.mp hc with hc2 | hc2
      · rcases List.mem_append.mp hc2 with hc3 | hc3
        · exact (h1 c hc3).2
        · have hfc : fencePat = ['\x60', '\x60', '\x60'] := rfl
          rw [hfc] at hc3
          simp only [List.mem_cons, List.not_mem_nil, or_false] at hc3
          rcases hc3 with rfl | rfl | rfl <;> decide
      · exact (h2 c hc2).2
    have hne : w1 ++ fencePat ++ w2 ≠ [] := by simp [fencePat]
    have hsp : splitlines (w1 ++ fencePat ++ w2) = [w1 ++ fencePat ++ w2] :=
      splitlines_noBreak _ hnb hne
    have hps : pyStrip (w1 ++ (fencePat ++ w2)) = fencePat := by
      rw [← List.append_assoc]
      exact pyStrip_spaces_fence w1 w2 (fun c hc => (h1 c hc).1) (fun c hc => (h2 c hc).1)
    rw [fenceCheck, hsp]
    simp [hps]
  · decide

/-- C5 witness: the fence line with two spaces either side is accepted and
the tagged fence is rejected. -/
theorem claimC5_witness :
    fenceCheck ([' ', ' '] ++ fencePat ++ [' ', ' ']) = true ∧
      fenceCheck (("```python").toList) = false :=
  claimC5_strip_comparison [' ', ' '] [' ', ' '] (by decide) (by decide)

/-- C6: a `.md` file whose content splits into no lines at all is never
added: the per-file body yields nothing for it. -/
theorem claimC6_empty_lines (root name c : Str) (h : splitlines c = []) :
    processFile root (FileEnt.mk name (some c)) = none := by
  have hfc : fenceCheck c = false := by rw [fenceCheck, h]; rfl
  cases hm : endsMd name with
  | false => simp [processFile, hm]
  | true => simp [processFile, hm, hfc]

/-- C6 witness: a zero-byte `a.md` is not added. -/
theorem claimC6_witness :
    splitlines [] = [] ∧
      processFile dotPath (FileEnt.mk (("a.md").toList) (some [])) = none :=
  ⟨rfl, claimC6_empty_lines dotPath (("a.md").toList) [] rfl⟩

/-- C7: the scan is deterministic: two runs on the same unmodified tree
(same traversal order and file contents) print identical output. -/
theorem claimC7_deterministic (t1 t2 : DirTree) (h : t1 = t2) :
    output t1 = output t2 := by
  rw [h]

/-- C7 witness: the determinism theorem applied to a concrete tree. -/
theorem claimC7_witness :
    gitExampleTree = gitExampleTree ∧
      output gitExampleTree = output gitExampleTree :=
  ⟨rfl, claimC7_deterministic gitExampleTree gitExampleTree rfl⟩

/-- C8: the exclusion test applies to the directory path only, never to the
file name: a file called `archive.venv.md`, whose name contains `.venv`,
sitting in a non-excluded directory, is still checked and reported. -/
theorem claimC8_filename_not_excluded (root c : Str) (hroot : isExcluded root = false)
    (hc : fenceCheck c = true) :
    containsSub (("archive.venv.md").toList) ((".venv").toList) = true ∧
      dirContribution root [FileEnt.mk (("archive.venv.md").toList) (some c)] =
        [pathJoin root (("archive.venv.md").toList)] := by
  refine ⟨by decide, ?_⟩
  have hpf : processFile root (FileEnt.mk (("archive.venv.md").toList) (some c)) =
      some (pathJoin root (("archive.venv.md").toList)) := by
    rw [processFile, if_pos (show endsMd (("archive.venv.md").toList) = true by decide)]
    simp [hc]
  rw [dirContribution, if_neg (by simp [hroot]), List.filterMap_cons, hpf]
  rfl

/-- C8 witness: `./archive.venv.md` with a bare-fence content is reported
from the non-excluded root directory. -/
theorem claimC8_witness :
    isExcluded dotPath = false ∧ fenceCheck fencePat = true ∧
      (containsSub (("archive.venv.md").toList) ((".venv").toList) = true ∧
        dirContribution dotPath [FileEnt.mk (("archive.venv.md").toList) (some fencePat)] =
          [pathJoin dotPath (("archive.venv.md").toList)]) :=
  ⟨by decide, by decide,
    claimC8_filename_not_excluded dotPath fencePat (by decide) (by decide)⟩

/-- C9: although the walk does not prune excluded directories, the
ResultSet equals the one produced by the spec's pruned traversal, because
every descendant of an excluded directory is itself excluded at its own
iteration. -/
theorem claimC9_pruned_equivalence (t : DirTree) : scan t = scanPruned dotPath t :=
  scanFrom_eq_scanPruned dotPath t

/-- C10: a directory whose listing fails is skipped whole and silently: the
walk yields nothing for it, dropping it from any parent's subdirectory
list changes nothing, it contributes no path, and the program still prints
one of the two output shapes (here the no-match line). -/
theorem claimC10_unlistable_skipped (p n : Str) (subs : List (Str × DirTree))
    (files : List FileEnt) (pre post : List (Str × DirTree)) :
    walk p (.node false subs files) = [] ∧
      walkSubs p (pre ++ (n, .node false subs files) :: post) = walkSubs p (pre ++ post) ∧
      output (.node false subs files) = [noMatchLine] := by
  refine ⟨by simp [walk], ?_, ?_⟩
  · rw [walkSubs_append, walkSubs_append]
    simp [walkSubs, walk]
  · simp [output, scan, scanFrom, walk]
